import Mathlib

set_option autoImplicit false

/-!
Verification of the CSV-parsing primitive of this repository
(`src/src/stdlib/parse_csv.rs`).

The repository's own code is the `parse_csv` wrapper: it extracts the two byte
arguments, validates that the delimiter is exactly one byte, hands the input to
the tokenizer of the external `quick_csv` crate, takes the first record, and
converts it (or the error) into the host representation.  The tokenizer itself
is not under `src/`; it is modelled here from the spec's state machine
(§4.2: FieldStart / UnquotedField / QuotedField / QuoteSeen, the lenient
discard policy after a closing quote, and the unterminated-quote quirk) and
validated against the test vectors of `src/src/stdlib/parse_csv.rs`.

Bytes are modelled as `Nat`, byte buffers as `List Nat`, fallible results as
`Except String`.
-/

namespace ParseCsv

/-- The double-quote byte `"` (0x22). -/
abbrev QUOTE : Nat := 34

/-- The line-feed byte (0x0A). -/
abbrev LF : Nat := 10

/-- The carriage-return byte (0x0D). -/
abbrev CR : Nat := 13

/-- Modelled from the spec: the states of the tokenizer state machine (§4.2).
`unquoted`/`quoted`/`quoteSeen` carry the bytes of the current field in
reverse order; `skipTail` carries the already-resolved field whose trailing
junk (content after a closing quote) is being discarded. -/
inductive ScanState
  | fieldStart
  | unquoted (acc : List Nat)
  | quoted (acc : List Nat)
  | quoteSeen (acc : List Nat)
  | skipTail (f : List Nat)

/-- Modelled from the spec: the tokenizer state machine of the external
`quick_csv` crate invoked by `parse_csv` (the crate's code is not under
`src/`).  Scans one record: fields split on the delimiter byte `d`, quoted
fields taken verbatim (doubled quotes collapse to one), a quote inside an
unquoted field is an error, scanning stops at a bare LF or a CR immediately
followed by LF outside quotes, a quoted field left open at end-of-input has
the final byte of its trailing content dropped, and content between a closing
quote and the next delimiter/terminator is discarded.  `fields` holds the
completed fields in reverse order. -/
def runCsv (d : Nat) : ScanState → List (List Nat) → List Nat → Except String (List (List Nat))
  | .fieldStart, fields, [] => .ok ((([] : List Nat) :: fields).reverse)
  | .unquoted acc, fields, [] => .ok ((acc.reverse :: fields).reverse)
  | .quoted acc, fields, [] => .ok ((acc.reverse.dropLast :: fields).reverse)
  | .quoteSeen acc, fields, [] => .ok ((acc.reverse :: fields).reverse)
  | .skipTail f, fields, [] => .ok ((f :: fields).reverse)
  | .fieldStart, fields, b :: rest =>
    if b = QUOTE then runCsv d (.quoted []) fields rest
    else if b = d then runCsv d .fieldStart ([] :: fields) rest
    else if b = LF then .ok ((([] : List Nat) :: fields).reverse)
    else if b = CR ∧ rest.head? = some LF then .ok ((([] : List Nat) :: fields).reverse)
    else runCsv d (.unquoted [b]) fields rest
  | .unquoted acc, fields, b :: rest =>
    if b = d then runCsv d .fieldStart (acc.reverse :: fields) rest
    else if b = LF then .ok ((acc.reverse :: fields).reverse)
    else if b = CR ∧ rest.head? = some LF then .ok ((acc.reverse :: fields).reverse)
    else if b = QUOTE then
      .error "A CSV column has a quote but the entire column value is not quoted"
    else runCsv d (.unquoted (b :: acc)) fields rest
  | .quoted acc, fields, b :: rest =>
    if b = QUOTE then runCsv d (.quoteSeen acc) fields rest
    else runCsv d (.quoted (b :: acc)) fields rest
  | .quoteSeen acc, fields, b :: rest =>
    if b = QUOTE then runCsv d (.quoted (QUOTE :: acc)) fields rest
    else if b = d then runCsv d .fieldStart (acc.reverse :: fields) rest
    else if b = LF then .ok ((acc.reverse :: fields).reverse)
    else if b = CR ∧ rest.head? = some LF then .ok ((acc.reverse :: fields).reverse)
    else runCsv d (.skipTail acc.reverse) fields rest
  | .skipTail f, fields, b :: rest =>
    if b = d then runCsv d .fieldStart (f :: fields) rest
    else if b = LF then .ok ((f :: fields).reverse)
    else if b = CR ∧ rest.head? = some LF then .ok ((f :: fields).reverse)
    else runCsv d (.skipTail f) fields rest

/-- Modelled from the spec: the first record produced by the `quick_csv`
iterator — `none` when the input buffer is empty (the iterator yields no row),
otherwise the run of the state machine from the start of the buffer. -/
def firstRow (d : Nat) (input : List Nat) : Option (Except String (List (List Nat))) :=
  if input.isEmpty then none else some (runCsv d .fieldStart [] input)

/-- Embedding of `parse_csv` from `src/src/stdlib/parse_csv.rs` (bytes path):
reject a delimiter whose byte length is not exactly 1, otherwise tokenize with
the delimiter's single byte, prefix tokenizer errors with
"invalid csv record: ", and turn a missing first record into the empty
sequence of fields (`unwrap_or_default`). -/
def parse_csv (csv_string : List Nat) (delimiter : List Nat) : Except String (List (List Nat)) :=
  match delimiter with
  | [b] =>
    match firstRow b csv_string with
    | none => .ok []
    | some (.error e) => .error ("invalid csv record: " ++ e)
    | some (.ok fields) => .ok fields
  | _ => .error "delimiter must be a single character"

/-- The comma byte, the default delimiter of `parse_csv`. -/
abbrev COMMA : Nat := 44

-- Model validation against the test vectors of `src/src/stdlib/parse_csv.rs`.

example : parse_csv [] [COMMA] = .ok [] := rfl

example : -- single_value: "foo"
    parse_csv [102, 111, 111] [COMMA] = .ok [[102, 111, 111]] := rfl

example : -- empty_fields: "field1,,field3," (using "a,,b," shape)
    parse_csv [97, 44, 44, 98, 44] [COMMA] = .ok [[97], [], [98], []] := rfl

example : -- only_commas: ",,,"
    parse_csv [44, 44, 44] [COMMA] = .ok [[], [], [], []] := rfl

example : -- custom_delimiter: "foo bar" with " "
    parse_csv [102, 111, 111, 32, 98, 97, 114] [32] = .ok [[102, 111, 111], [98, 97, 114]] := rfl

example : -- invalid_delimiter: ",,"
    parse_csv [102] [44, 44] = .error "delimiter must be a single character" := rfl

example : -- empty_delimiter
    parse_csv [102] [] = .error "delimiter must be a single character" := rfl

example : -- multiple_lines: "a,b\nc,d"
    parse_csv [97, 44, 98, 10, 99, 44, 100] [COMMA] = .ok [[97], [98]] := rfl

example : -- carriage_return_handling: "a,b\r\nc,d"
    parse_csv [97, 44, 98, 13, 10, 99, 44, 100] [COMMA] = .ok [[97], [98]] := rfl

example : -- quoted_fields_with_commas: "\"a,b\",c"
    parse_csv [34, 97, 44, 98, 34, 44, 99] [COMMA] = .ok [[97, 44, 98], [99]] := rfl

example : -- newlines_in_quoted_fields: "\"a\nb\",c"
    parse_csv [34, 97, 10, 98, 34, 44, 99] [COMMA] = .ok [[97, 10, 98], [99]] := rfl

example : -- quoted_fields_with_quotes: "\"a \"\"q\"\"\",c"
    parse_csv [34, 97, 32, 34, 34, 113, 34, 34, 34, 44, 99] [COMMA] =
      .ok [[97, 32, 34, 113, 34], [99]] := rfl

example : -- quoted_empty_fields: "a,\"\",c"
    parse_csv [97, 44, 34, 34, 44, 99] [COMMA] = .ok [[97], [], [99]] := rfl

example : -- only_quotes: "\"\""
    parse_csv [34, 34] [COMMA] = .ok [[]] := rfl

example : -- malformed_quotes_unclosed: "a,\"bc,d" → ["a", "bc,"]
    parse_csv [97, 44, 34, 98, 99, 44, 100] [COMMA] = .ok [[97], [98, 99, 44]] := rfl

example : -- malformed_quotes_embedded: "a,fi\"e,b"
    parse_csv [97, 44, 102, 105, 34, 101, 44, 98] [COMMA] =
      .error "invalid csv record: A CSV column has a quote but the entire column value is not quoted" := rfl

example : -- invalid_utf8: "foo,b\xFFar"
    parse_csv [102, 111, 111, 44, 98, 255, 97, 114] [COMMA] =
      .ok [[102, 111, 111], [98, 255, 97, 114]] := rfl

/-- Splitting a byte sequence on the delimiter byte, preserving empty fields
(one empty field for the empty list, a trailing empty field after a trailing
delimiter). -/
def splitBytes (d : Nat) : List Nat → List (List Nat)
  | [] => [[]]
  | b :: rest =>
    if b = d then [] :: splitBytes d rest
    else
      match splitBytes d rest with
      | [] => [[b]]
      | f :: fs => (b :: f) :: fs

/-- Modelled from the spec (§8 first property together with the §4.2 edge
case): the fields obtained by splitting the input on the delimiter byte,
preserving empty fields, where the empty input yields zero fields. -/
def specSplit (d : Nat) (input : List Nat) : List (List Nat) :=
  if input = [] then [] else splitBytes d input

theorem splitBytes_ne_nil (d : Nat) (l : List Nat) : splitBytes d l ≠ [] := by
  cases l with
  | nil => simp [splitBytes]
  | cons b rest =>
    simp only [splitBytes]
    split
    · simp
    · split <;> simp

/-- Prepend bytes to the head field of a field list. -/
def consTo (p : List Nat) : List (List Nat) → List (List Nat)
  | [] => [p]
  | f :: fs => (p ++ f) :: fs

theorem consTo_nil_left (fs : List (List Nat)) (h : fs ≠ []) : consTo [] fs = fs := by
  cases fs with
  | nil => exact absurd rfl h
  | cons f fs => simp [consTo]

/-- No quote, line-feed or carriage-return byte occurs in the list: such
content never interacts with quoting or line termination. -/
def NoSpecial (l : List Nat) : Prop := ∀ b ∈ l, b ≠ QUOTE ∧ b ≠ LF ∧ b ≠ CR

instance (l : List Nat) : Decidable (NoSpecial l) :=
  inferInstanceAs (Decidable (∀ b ∈ l, b ≠ QUOTE ∧ b ≠ LF ∧ b ≠ CR))

/-- The ways the scan can stop after a clean prefix: end of input, a bare
line feed, or a carriage return immediately followed by line feed (the
terminator byte itself not being the delimiter). -/
def Terminator (d : Nat) (t : List Nat) : Prop :=
  t = [] ∨ (d ≠ LF ∧ ∃ s, t = LF :: s) ∨ (d ≠ CR ∧ ∃ s, t = CR :: LF :: s)

theorem splitBytes_cons_exists (d : Nat) (l : List Nat) :
    ∃ f fs, splitBytes d l = f :: fs := by
  cases hsb : splitBytes d l with
  | nil => exact absurd hsb (splitBytes_ne_nil d l)
  | cons f fs => exact ⟨f, fs, rfl⟩

theorem fieldStart_eq_unquoted (d b : Nat) (rest : List Nat) (fields : List (List Nat))
    (hq : b ≠ QUOTE) (hlf : b ≠ LF) (hcr : b ≠ CR) :
    runCsv d .fieldStart fields (b :: rest) = runCsv d (.unquoted []) fields (b :: rest) := by
  by_cases hbd : b = d
  · subst hbd
    simp [runCsv, hq, hlf, hcr]
  · simp [runCsv, hq, hlf, hcr, hbd]

theorem fieldStart_eq_unquoted_term (d : Nat) (p t : List Nat) (fields : List (List Nat))
    (hp : NoSpecial p) (ht : Terminator d t) :
    runCsv d .fieldStart fields (p ++ t) = runCsv d (.unquoted []) fields (p ++ t) := by
  cases p with
  | cons b p' =>
    obtain ⟨hq, hlf, hcr⟩ := hp b (by simp)
    exact fieldStart_eq_unquoted d b _ fields hq hlf hcr
  | nil =>
    rcases ht with h | ⟨hd, s, h⟩ | ⟨hd, s, h⟩
    · subst h; simp [runCsv]
    · subst h; simp [runCsv, hd.symm]
    · subst h; simp [runCsv, hd.symm]

theorem runCsv_unquoted_split (d : Nat) (p : List Nat) (hp : NoSpecial p) :
    ∀ t, Terminator d t → ∀ acc fields,
      runCsv d (.unquoted acc) fields (p ++ t) =
        .ok (fields.reverse ++ consTo acc.reverse (splitBytes d p)) := by
  induction p with
  | nil =>
    intro t ht acc fields
    rcases ht with h | ⟨hd, s, h⟩ | ⟨hd, s, h⟩
    · subst h; simp [runCsv, consTo, splitBytes]
    · subst h; simp [runCsv, consTo, splitBytes, hd.symm]
    · subst h; simp [runCsv, consTo, splitBytes, hd.symm]
  | cons b p' ih =>
    intro t ht acc fields
    obtain ⟨hq, hlf, hcr⟩ := hp b (by simp)
    have hp' : NoSpecial p' := fun x hx => hp x (by simp [hx])
    obtain ⟨f, fs, hsb⟩ := splitBytes_cons_exists d p'
    by_cases hbd : b = d
    · subst hbd
      rw [List.cons_append]
      have step : runCsv b (.unquoted acc) fields (b :: (p' ++ t)) =
          runCsv b .fieldStart (acc.reverse :: fields) (p' ++ t) := by
        simp [runCsv]
      rw [step, fieldStart_eq_unquoted_term b p' t _ hp' ht,
        ih hp' t ht [] (acc.reverse :: fields)]
      simp [splitBytes, hsb, consTo]
    · rw [List.cons_append]
      have step : runCsv d (.unquoted acc) fields (b :: (p' ++ t)) =
          runCsv d (.unquoted (b :: acc)) fields (p' ++ t) := by
        simp [runCsv, hbd, hlf, hcr, hq]
      rw [step, ih hp' t ht (b :: acc) fields]
      simp [splitBytes, hbd, hsb, consTo]

theorem runCsv_fieldStart_split (d : Nat) (p t : List Nat) (hp : NoSpecial p)
    (ht : Terminator d t) (fields : List (List Nat)) :
    runCsv d .fieldStart fields (p ++ t) = .ok (fields.reverse ++ splitBytes d p) := by
  rw [fieldStart_eq_unquoted_term d p t fields hp ht,
    runCsv_unquoted_split d p hp t ht [] fields]
  simp [consTo_nil_left _ (splitBytes_ne_nil d p)]

/-- C1: for every input byte sequence containing no quote characters and no
line-terminator bytes, and every one-byte delimiter, `parse_csv` succeeds and
returns exactly the fields obtained by splitting the input on the delimiter
byte, preserving empty fields (the empty input yielding zero fields, per the
spec's explicit empty-input policy). -/
theorem parse_csv_splits_clean_input (d : Nat) (input : List Nat) (h : NoSpecial input) :
    parse_csv input [d] = .ok (specSplit d input) := by
  cases input with
  | nil => rfl
  | cons b rest =>
    have hs := runCsv_fieldStart_split d (b :: rest) [] h (Or.inl rfl) []
    rw [List.append_nil] at hs
    simp [parse_csv, firstRow, hs, specSplit]

/-- Witness for C1: input "a,,b," with delimiter ','. -/
theorem parse_csv_splits_clean_input_witness :
    NoSpecial [97, 44, 44, 98, 44] ∧
      parse_csv [97, 44, 44, 98, 44] [44] = .ok [[97], [], [98], []] :=
  ⟨by decide, parse_csv_splits_clean_input 44 [97, 44, 44, 98, 44] (by decide)⟩

theorem runCsv_quoted_append (d : Nat) (c : List Nat) (hc : ∀ b ∈ c, b ≠ QUOTE) :
    ∀ acc fields rest,
      runCsv d (.quoted acc) fields (c ++ QUOTE :: rest) =
        runCsv d (.quoteSeen (c.reverse ++ acc)) fields rest := by
  induction c with
  | nil => intro acc fields rest; simp [runCsv]
  | cons b c' ih =>
    intro acc fields rest
    have hb : b ≠ QUOTE := hc b (by simp)
    have hc' : ∀ x ∈ c', x ≠ QUOTE := fun x hx => hc x (by simp [hx])
    rw [List.cons_append]
    have step : runCsv d (.quoted acc) fields (b :: (c' ++ QUOTE :: rest)) =
        runCsv d (.quoted (b :: acc)) fields (c' ++ QUOTE :: rest) := by
      simp [runCsv, hb]
    rw [step, ih hc' (b :: acc) fields rest]
    simp

theorem runCsv_quoted_eof (d : Nat) (c : List Nat) (hc : ∀ b ∈ c, b ≠ QUOTE) :
    ∀ acc fields,
      runCsv d (.quoted acc) fields c =
        .ok (fields.reverse ++ [(acc.reverse ++ c).dropLast]) := by
  induction c with
  | nil => intro acc fields; simp [runCsv]
  | cons b c' ih =>
    intro acc fields
    have hb : b ≠ QUOTE := hc b (by simp)
    have hc' : ∀ x ∈ c', x ≠ QUOTE := fun x hx => hc x (by simp [hx])
    have step : runCsv d (.quoted acc) fields (b :: c') =
        runCsv d (.quoted (b :: acc)) fields c' := by
      simp [runCsv, hb]
    rw [step, ih hc' (b :: acc) fields]
    simp

theorem parse_csv_of_runCsv_ok (input : List Nat) (d : Nat) (fields : List (List Nat))
    (hne : input ≠ []) (h : runCsv d .fieldStart [] input = .ok fields) :
    parse_csv input [d] = .ok fields := by
  cases input with
  | nil => exact absurd rfl hne
  | cons b' rest => simp [parse_csv, firstRow, h]

theorem parse_csv_of_runCsv_error (input : List Nat) (d : Nat) (e : String)
    (hne : input ≠ []) (h : runCsv d .fieldStart [] input = .error e) :
    parse_csv input [d] = .error ("invalid csv record: " ++ e) := by
  cases input with
  | nil => exact absurd rfl hne
  | cons b' rest => simp [parse_csv, firstRow, h]

/-- C4: for every field that begins with a quote character, all delimiter and
line-terminator bytes between the opening and closing quote are included
literally in the field's content (here: arbitrary quote-free content `c`,
which may contain the delimiter, LF and CR), and the enclosing quote
characters are not part of the returned field. -/
theorem quoted_field_literal_content (d : Nat) (c u : List Nat) (hd : d ≠ QUOTE)
    (hc : ∀ b ∈ c, b ≠ QUOTE) (hu : NoSpecial u) :
    parse_csv (QUOTE :: (c ++ QUOTE :: d :: u)) [d] = .ok (c :: splitBytes d u) := by
  apply parse_csv_of_runCsv_ok _ _ _ (by simp)
  have h0 : runCsv d .fieldStart [] (QUOTE :: (c ++ QUOTE :: d :: u)) =
      runCsv d (.quoted []) [] (c ++ QUOTE :: d :: u) := by
    simp [runCsv]
  rw [h0, runCsv_quoted_append d c hc [] [] (d :: u)]
  have h1 : runCsv d (.quoteSeen (c.reverse ++ [])) [] (d :: u) =
      runCsv d .fieldStart [c] u := by
    simp [runCsv, hd]
  rw [h1]
  have hs := runCsv_fieldStart_split d u [] hu (Or.inl rfl) [c]
  rw [List.append_nil] at hs
  rw [hs]
  rfl

/-- Witness for C4: "\"a,\nb\",c" with delimiter ',': the comma and the line
feed inside the quotes stay literal, the quotes are stripped. -/
theorem quoted_field_literal_content_witness :
    parse_csv [34, 97, 44, 10, 98, 34, 44, 99] [44] = .ok [[97, 44, 10, 98], [99]] :=
  quoted_field_literal_content 44 [97, 44, 10, 98] [99] (by decide) (by decide) (by decide)

/-- C5: a run of two consecutive quote bytes inside an open quoted field is
resolved to exactly one literal quote byte in the field's content; no other
byte (in particular a backslash, which may occur freely in `c1`/`c2`) is an
escape. -/
theorem doubled_quote_collapses (d : Nat) (c1 c2 : List Nat)
    (h1 : ∀ b ∈ c1, b ≠ QUOTE) (h2 : ∀ b ∈ c2, b ≠ QUOTE) :
    parse_csv (QUOTE :: (c1 ++ QUOTE :: QUOTE :: (c2 ++ [QUOTE]))) [d] =
      .ok [c1 ++ QUOTE :: c2] := by
  apply parse_csv_of_runCsv_ok _ _ _ (by simp)
  have h0 : runCsv d .fieldStart [] (QUOTE :: (c1 ++ QUOTE :: QUOTE :: (c2 ++ [QUOTE]))) =
      runCsv d (.quoted []) [] (c1 ++ QUOTE :: QUOTE :: (c2 ++ [QUOTE])) := by
    simp [runCsv]
  rw [h0, runCsv_quoted_append d c1 h1 [] [] (QUOTE :: (c2 ++ [QUOTE]))]
  have h1' : runCsv d (.quoteSeen (c1.reverse ++ [])) [] (QUOTE :: (c2 ++ [QUOTE])) =
      runCsv d (.quoted (QUOTE :: (c1.reverse ++ []))) [] (c2 ++ [QUOTE]) := by
    simp [runCsv]
  rw [h1', runCsv_quoted_append d c2 h2 _ [] []]
  simp [runCsv]

/-- Witness for C5: "\"a \"\"q\"\"\"" (a quoted field containing a doubled
quote, with a backslash byte in front) parses to the field with one literal
quote. -/
theorem doubled_quote_collapses_witness :
    parse_csv [34, 92, 97, 34, 34, 113, 34] [44] = .ok [[92, 97, 34, 113]] :=
  doubled_quote_collapses 44 [92, 97] [113] (by decide) (by decide)

/-- C6: parse returns only the fields of the first record: scanning stops at
the first bare line feed, or carriage return immediately followed by line
feed, outside quotes; the terminator bytes (including the carriage return)
are in no field, and the bytes `s` after the terminator never influence the
output. -/
theorem first_record_only (d : Nat) (p s : List Nat) (hp : NoSpecial p)
    (hlf : d ≠ LF) (hcr : d ≠ CR) :
    parse_csv (p ++ LF :: s) [d] = .ok (splitBytes d p) ∧
      parse_csv (p ++ CR :: LF :: s) [d] = .ok (splitBytes d p) := by
  constructor
  · apply parse_csv_of_runCsv_ok _ _ _ (by simp)
    have hs := runCsv_fieldStart_split d p (LF :: s) hp (Or.inr (Or.inl ⟨hlf, s, rfl⟩)) []
    simpa using hs
  · apply parse_csv_of_runCsv_ok _ _ _ (by simp)
    have hs := runCsv_fieldStart_split d p (CR :: LF :: s) hp (Or.inr (Or.inr ⟨hcr, s, rfl⟩)) []
    simpa using hs

/-- Witness for C6: "a,b\nc" and "a,b\r\nc" both yield ["a", "b"]. -/
theorem first_record_only_witness :
    parse_csv [97, 44, 98, 10, 99] [44] = .ok [[97], [98]] ∧
      parse_csv [97, 44, 98, 13, 10, 99] [44] = .ok [[97], [98]] :=
  first_record_only 44 [97, 44, 98] [99] (by decide) (by decide) (by decide)

theorem runCsv_unquoted_quote_error (d : Nat) (hd : d ≠ QUOTE) :
    ∀ (p : List Nat), NoSpecial p → p ≠ [] → p.getLast? ≠ some d →
      ∀ acc fields s,
        runCsv d (.unquoted acc) fields (p ++ QUOTE :: s) =
          .error "A CSV column has a quote but the entire column value is not quoted" := by
  intro p
  induction p with
  | nil => intro _ hne _ _ _ _; exact absurd rfl hne
  | cons b p' ih =>
    intro hp _ hlast acc fields s
    obtain ⟨hq, hlf, hcr⟩ := hp b (by simp)
    have hp' : NoSpecial p' := fun x hx => hp x (by simp [hx])
    cases p' with
    | nil =>
      have hbd : b ≠ d := by
        intro h
        exact hlast (by simp [h])
      simp [runCsv, hbd, hlf, hcr, hq, hd.symm]
    | cons b2 p'' =>
      have hlast' : (b2 :: p'').getLast? ≠ some d := by
        rwa [List.getLast?_cons_cons] at hlast
      by_cases hbd : b = d
      · subst hbd
        rw [List.cons_append]
        have step : runCsv b (.unquoted acc) fields (b :: ((b2 :: p'') ++ QUOTE :: s)) =
            runCsv b .fieldStart (acc.reverse :: fields) ((b2 :: p'') ++ QUOTE :: s) := by
          simp [runCsv]
        obtain ⟨hq2, hlf2, hcr2⟩ := hp' b2 (by simp)
        rw [step, List.cons_append, fieldStart_eq_unquoted b b2 _ _ hq2 hlf2 hcr2,
          ← List.cons_append]
        exact ih hp' (by simp) hlast' [] (acc.reverse :: fields) s
      · rw [List.cons_append]
        have step : runCsv d (.unquoted acc) fields (b :: ((b2 :: p'') ++ QUOTE :: s)) =
            runCsv d (.unquoted (b :: acc)) fields ((b2 :: p'') ++ QUOTE :: s) := by
          simp [runCsv, hbd, hlf, hcr, hq]
        rw [step]
        exact ih hp' (by simp) hlast' (b :: acc) fields s

/-- C3: a quote character occurring inside an unquoted field (not as the
field's first byte) makes parse fail with an error whose message is
"invalid csv record: " followed by the underlying reason; no fields are
returned alongside the error. -/
theorem quote_inside_unquoted_field_errors (d : Nat) (p s : List Nat) (hd : d ≠ QUOTE)
    (hp : NoSpecial p) (hne : p ≠ []) (hlast : p.getLast? ≠ some d) :
    parse_csv (p ++ QUOTE :: s) [d] =
      .error ("invalid csv record: " ++
        "A CSV column has a quote but the entire column value is not quoted") := by
  apply parse_csv_of_runCsv_error _ _ _ (by simp)
  cases p with
  | nil => exact absurd rfl hne
  | cons b p' =>
    obtain ⟨hq, hlf, hcr⟩ := hp b (by simp)
    rw [List.cons_append, fieldStart_eq_unquoted d b _ _ hq hlf hcr, ← List.cons_append]
    exact runCsv_unquoted_quote_error d hd (b :: p') hp hne hlast [] [] s

/-- Witness for C3: "a,fi\"e,b" fails with the malformed-record message. -/
theorem quote_inside_unquoted_field_errors_witness :
    parse_csv [97, 44, 102, 105, 34, 101, 44, 98] [44] =
      .error "invalid csv record: A CSV column has a quote but the entire column value is not quoted" :=
  quote_inside_unquoted_field_errors 44 [97, 44, 102, 105] [101, 44, 98]
    (by decide) (by decide) (by decide) (by decide)

theorem splitBytes_cons_self (d : Nat) (rest : List Nat) :
    splitBytes d (d :: rest) = [] :: splitBytes d rest := by
  simp [splitBytes]

theorem splitBytes_cons_ne (d b : Nat) (rest : List Nat) (h : b ≠ d)
    (f : List Nat) (fs : List (List Nat)) (hsb : splitBytes d rest = f :: fs) :
    splitBytes d (b :: rest) = (b :: f) :: fs := by
  simp [splitBytes, h, hsb]

theorem dropLast_cons_cons (x y : List Nat) (l : List (List Nat)) :
    (x :: y :: l).dropLast = x :: (y :: l).dropLast := rfl

theorem runCsv_unquoted_complete (d : Nat) :
    ∀ (p : List Nat), NoSpecial p → p.getLast? = some d →
      ∀ acc fields rest,
        runCsv d (.unquoted acc) fields (p ++ rest) =
          runCsv d .fieldStart
            ((consTo acc.reverse (splitBytes d p)).dropLast.reverse ++ fields) rest := by
  intro p
  induction p with
  | nil => intro _ h; simp at h
  | cons b p' ih =>
    intro hp hlast acc fields rest
    obtain ⟨hq, hlf, hcr⟩ := hp b (by simp)
    have hp' : NoSpecial p' := fun x hx => hp x (by simp [hx])
    cases p' with
    | nil =>
      have hbd : b = d := by simpa using hlast
      subst hbd
      simp [runCsv, splitBytes, consTo]
    | cons b2 p'' =>
      have hlast' : (b2 :: p'').getLast? = some d := by
        rwa [List.getLast?_cons_cons] at hlast
      obtain ⟨f, fs, hsb⟩ := splitBytes_cons_exists d (b2 :: p'')
      by_cases hbd : b = d
      · subst hbd
        rw [List.cons_append]
        have step : runCsv b (.unquoted acc) fields (b :: ((b2 :: p'') ++ rest)) =
            runCsv b .fieldStart (acc.reverse :: fields) ((b2 :: p'') ++ rest) := by
          simp [runCsv]
        obtain ⟨hq2, hlf2, hcr2⟩ := hp' b2 (by simp)
        rw [step, List.cons_append, fieldStart_eq_unquoted b b2 _ _ hq2 hlf2 hcr2,
          ← List.cons_append, ih hp' hlast' [] (acc.reverse :: fields) rest]
        congr 1
        rw [splitBytes_cons_self, hsb]
        simp [consTo, dropLast_cons_cons]
      · rw [List.cons_append]
        have step : runCsv d (.unquoted acc) fields (b :: ((b2 :: p'') ++ rest)) =
            runCsv d (.unquoted (b :: acc)) fields ((b2 :: p'') ++ rest) := by
          simp [runCsv, hbd, hlf, hcr, hq]
        rw [step, ih hp' hlast' (b :: acc) fields rest]
        congr 1
        rw [splitBytes_cons_ne d b (b2 :: p'') hbd f fs hsb, hsb]
        simp [consTo]

theorem runCsv_fieldStart_complete (d : Nat) (p : List Nat) (hp : NoSpecial p)
    (hlast : p = [] ∨ p.getLast? = some d) (fields : List (List Nat)) (rest : List Nat) :
    runCsv d .fieldStart fields (p ++ rest) =
      runCsv d .fieldStart ((splitBytes d p).dropLast.reverse ++ fields) rest := by
  rcases hlast with h | h
  · subst h
    simp [splitBytes]
  · cases p with
    | nil => simp at h
    | cons b p' =>
      obtain ⟨hq, hlf, hcr⟩ := hp b (by simp)
      rw [List.cons_append, fieldStart_eq_unquoted d b _ _ hq hlf hcr, ← List.cons_append,
        runCsv_unquoted_complete d (b :: p') hp h [] fields rest]
      congr 1
      simp [consTo_nil_left _ (splitBytes_ne_nil d (b :: p'))]

/-- C7: a final field opened with a quote that is never closed before
end-of-input does not make parse fail: the preceding complete fields are
returned normally and the last field is the content after the opening quote
up to end-of-input with its final byte dropped. -/
theorem unterminated_quote_drops_last_byte (d : Nat) (p c : List Nat)
    (hp : NoSpecial p) (hlast : p = [] ∨ p.getLast? = some d)
    (hc : ∀ b ∈ c, b ≠ QUOTE) :
    parse_csv (p ++ QUOTE :: c) [d] =
      .ok ((splitBytes d p).dropLast ++ [c.dropLast]) := by
  apply parse_csv_of_runCsv_ok _ _ _ (by simp)
  rw [runCsv_fieldStart_complete d p hp hlast [] (QUOTE :: c)]
  have step : runCsv d .fieldStart ((splitBytes d p).dropLast.reverse ++ []) (QUOTE :: c) =
      runCsv d (.quoted []) ((splitBytes d p).dropLast.reverse ++ []) c := by
    simp [runCsv]
  rw [step, runCsv_quoted_eof d c hc [] _]
  simp

/-- Witness for C7: "a,\"bc,d" parses to ["a", "bc,"] — the unterminated
quoted field keeps everything after the opening quote except its final byte. -/
theorem unterminated_quote_drops_last_byte_witness :
    parse_csv [97, 44, 34, 98, 99, 44, 100] [44] = .ok [[97], [98, 99, 44]] :=
  unterminated_quote_drops_last_byte 44 [97, 44] [98, 99, 44, 100]
    (by decide) (Or.inr (by decide)) (by decide)

theorem runCsv_skipTail_delim (d : Nat) :
    ∀ (j : List Nat), (∀ b ∈ j, b ≠ d ∧ b ≠ LF ∧ b ≠ CR) →
      ∀ f fields rest,
        runCsv d (.skipTail f) fields (j ++ d :: rest) =
          runCsv d .fieldStart (f :: fields) rest := by
  intro j
  induction j with
  | nil => intro _ f fields rest; simp [runCsv]
  | cons b j' ih =>
    intro hj f fields rest
    obtain ⟨hbd, hlf, hcr⟩ := hj b (by simp)
    have hj' : ∀ x ∈ j', x ≠ d ∧ x ≠ LF ∧ x ≠ CR := fun x hx => hj x (by simp [hx])
    rw [List.cons_append]
    have step : runCsv d (.skipTail f) fields (b :: (j' ++ d :: rest)) =
        runCsv d (.skipTail f) fields (j' ++ d :: rest) := by
      simp [runCsv, hbd, hlf, hcr]
    rw [step, ih hj' f fields rest]

theorem runCsv_skipTail_lf (d : Nat) (hd : d ≠ LF) :
    ∀ (j : List Nat), (∀ b ∈ j, b ≠ d ∧ b ≠ LF ∧ b ≠ CR) →
      ∀ f fields s,
        runCsv d (.skipTail f) fields (j ++ LF :: s) = .ok ((f :: fields).reverse) := by
  intro j
  induction j with
  | nil => intro _ f fields s; simp [runCsv, hd.symm]
  | cons b j' ih =>
    intro hj f fields s
    obtain ⟨hbd, hlf, hcr⟩ := hj b (by simp)
    have hj' : ∀ x ∈ j', x ≠ d ∧ x ≠ LF ∧ x ≠ CR := fun x hx => hj x (by simp [hx])
    rw [List.cons_append]
    have step : runCsv d (.skipTail f) fields (b :: (j' ++ LF :: s)) =
        runCsv d (.skipTail f) fields (j' ++ LF :: s) := by
      simp [runCsv, hbd, hlf, hcr]
    rw [step, ih hj' f fields s]

/-- C8: when a quoted field's closing quote is followed by a byte that is
neither a quote, the delimiter, nor a line terminator, parse does not fail:
the field ends at the closing quote and the junk up to (but not including)
the next delimiter (first conjunct) or line terminator (second conjunct) is
discarded from the output. -/
theorem junk_after_closing_quote_discarded (d : Nat) (c j u s : List Nat)
    (hc : ∀ b ∈ c, b ≠ QUOTE) (hj : ∀ b ∈ j, b ≠ d ∧ b ≠ LF ∧ b ≠ CR)
    (hjq : j.head? ≠ some QUOTE) (hjne : j ≠ []) (hu : NoSpecial u) (hdlf : d ≠ LF) :
    parse_csv (QUOTE :: (c ++ QUOTE :: (j ++ d :: u))) [d] = .ok (c :: splitBytes d u) ∧
      parse_csv (QUOTE :: (c ++ QUOTE :: (j ++ LF :: s))) [d] = .ok [c] := by
  cases j with
  | nil => exact absurd rfl hjne
  | cons b j' =>
    obtain ⟨hbd, hblf, hbcr⟩ := hj b (by simp)
    have hbq : b ≠ QUOTE := fun h => hjq (by simp [h])
    have hj' : ∀ x ∈ j', x ≠ d ∧ x ≠ LF ∧ x ≠ CR := fun x hx => hj x (by simp [hx])
    constructor
    · apply parse_csv_of_runCsv_ok _ _ _ (by simp)
      have h0 : runCsv d .fieldStart [] (QUOTE :: (c ++ QUOTE :: ((b :: j') ++ d :: u))) =
          runCsv d (.quoted []) [] (c ++ QUOTE :: ((b :: j') ++ d :: u)) := by
        simp [runCsv]
      rw [h0, runCsv_quoted_append d c hc [] [] _]
      have h1 : runCsv d (.quoteSeen (c.reverse ++ [])) [] ((b :: j') ++ d :: u) =
          runCsv d (.skipTail c) [] (j' ++ d :: u) := by
        rw [List.cons_append]
        simp [runCsv, hbq, hbd, hblf, hbcr]
      rw [h1, runCsv_skipTail_delim d j' hj' c [] u]
      have hs := runCsv_fieldStart_split d u [] hu (Or.inl rfl) [c]
      rw [List.append_nil] at hs
      rw [hs]
      simp
    · apply parse_csv_of_runCsv_ok _ _ _ (by simp)
      have h0 : runCsv d .fieldStart [] (QUOTE :: (c ++ QUOTE :: ((b :: j') ++ LF :: s))) =
          runCsv d (.quoted []) [] (c ++ QUOTE :: ((b :: j') ++ LF :: s)) := by
        simp [runCsv]
      rw [h0, runCsv_quoted_append d c hc [] [] _]
      have h1 : runCsv d (.quoteSeen (c.reverse ++ [])) [] ((b :: j') ++ LF :: s) =
          runCsv d (.skipTail c) [] (j' ++ LF :: s) := by
        rw [List.cons_append]
        simp [runCsv, hbq, hbd, hblf, hbcr]
      rw [h1, runCsv_skipTail_lf d hdlf j' hj' c [] s]
      simp

/-- Witness for C8: "\"ab\"zz,cd" → ["ab", "cd"] and "\"ab\"zz\nx" → ["ab"]. -/
theorem junk_after_closing_quote_discarded_witness :
    parse_csv [34, 97, 98, 34, 122, 122, 44, 99, 100] [44] = .ok [[97, 98], [99, 100]] ∧
      parse_csv [34, 97, 98, 34, 122, 122, 10, 120] [44] = .ok [[97, 98]] :=
  junk_after_closing_quote_discarded 44 [97, 98] [122, 122] [99, 100] [120]
    (by decide) (by decide) (by decide) (by decide) (by decide) (by decide)

theorem invalid_record_prefix_ne (e : String) :
    "invalid csv record: " ++ e ≠ "delimiter must be a single character" := by
  intro h
  rw [String.ext_iff, String.data_append] at h
  have h2 := congrArg List.head? h
  simp at h2

theorem parse_csv_single_ne_delim_error (input : List Nat) (b : Nat) :
    parse_csv input [b] ≠ .error "delimiter must be a single character" := by
  cases input with
  | nil => simp [parse_csv, firstRow]
  | cons x rest =>
    cases hr : runCsv b .fieldStart [] (x :: rest) with
    | ok fields =>
      rw [parse_csv_of_runCsv_ok _ _ _ (by simp) hr]
      simp
    | error e =>
      rw [parse_csv_of_runCsv_error _ _ _ (by simp) hr]
      intro hcontra
      exact invalid_record_prefix_ne e (Except.error.inj hcontra)

/-- C2: parse proceeds to tokenization if and only if the delimiter's byte
length is exactly 1; otherwise it fails — independently of the input buffer,
so before any of it is read — with exactly the message
"delimiter must be a single character". -/
theorem delimiter_must_be_single_byte (input delim : List Nat) :
    parse_csv input delim = .error "delimiter must be a single character" ↔
      delim.length ≠ 1 := by
  cases delim with
  | nil =>
    simp [show parse_csv input [] = .error "delimiter must be a single character" from rfl]
  | cons b rest =>
    cases rest with
    | nil => simp [parse_csv_single_ne_delim_error input b]
    | cons b2 r2 =>
      simp [show parse_csv input (b :: b2 :: r2) =
        .error "delimiter must be a single character" from rfl]

/-- Witness for C2: the two-byte delimiter ",," is rejected with the exact
message. -/
theorem delimiter_must_be_single_byte_witness :
    parse_csv [102, 111, 111] [44, 44] = .error "delimiter must be a single character" :=
  (delimiter_must_be_single_byte [102, 111, 111] [44, 44]).mpr (by decide)

/-- C9: the empty input buffer with any one-byte delimiter parses to the
empty sequence of fields, never an error. -/
theorem empty_input_empty_record (delim : List Nat) (h : delim.length = 1) :
    parse_csv [] delim = .ok [] := by
  cases delim with
  | nil => simp at h
  | cons b rest =>
    cases rest with
    | nil => rfl
    | cons b2 r2 => simp at h

/-- Witness for C9: empty input with delimiter ','. -/
theorem empty_input_empty_record_witness : parse_csv [] [44] = .ok [] :=
  empty_input_empty_record [44] rfl

/-- C10: `parse_csv` is total on arbitrary byte-sequence arguments: it always
returns either a success value or a typed error (first conjunct); a delimiter
whose length is not 1 short-circuits to the typed delimiter error (second
conjunct); and the delimiter's single byte is consumed only under the
length-one guard, where the result is exactly the guarded tokenization of the
input with that byte (third conjunct). -/
theorem parse_csv_never_panics (input delim : List Nat) :
    ((∃ fields, parse_csv input delim = .ok fields) ∨
        (∃ e, parse_csv input delim = .error e)) ∧
      (delim.length ≠ 1 →
        parse_csv input delim = .error "delimiter must be a single character") ∧
      (∀ b0, delim = [b0] →
        parse_csv input delim =
          match firstRow b0 input with
          | none => .ok []
          | some (.error e) => .error ("invalid csv record: " ++ e)
          | some (.ok fields) => .ok fields) := by
  refine ⟨?_, ?_, ?_⟩
  · cases h : parse_csv input delim with
    | ok fields => exact Or.inl ⟨fields, rfl⟩
    | error e => exact Or.inr ⟨e, rfl⟩
  · intro h
    exact (delimiter_must_be_single_byte input delim).mpr h
  · intro b0 h
    subst h
    rfl

/-- Witness for C10 at a concrete input and an empty delimiter. -/
theorem parse_csv_never_panics_witness :
    parse_csv [102] [] = .error "delimiter must be a single character" :=
  (parse_csv_never_panics [102] []).2.1 (by decide)

end ParseCsv
